import Mathlib

/-
Verification of the validation-and-transformation pipeline of
src/reddit_post_guess.py.

Strings are modelled as `List Char` (Python `str` is a sequence of code
points).  Helper functions named `py...` model the Python string methods
used by the source; the remaining definitions keep the source's names.
-/

set_option maxRecDepth 10000

/-- Python whitespace for `str.strip` / `str.rstrip` (ASCII part:
`' '`, `'\t'`, `'\n'`, `'\r'`, `'\x0b'`, `'\x0c'`). -/
def pyIsSpace (c : Char) : Bool :=
  c = ' ' || c = '\t' || c = '\n' || c = '\r' || c = Char.ofNat 11 || c = Char.ofNat 12

/-- Python `str.rstrip()`: drop the longest whitespace suffix. -/
def pyRstrip : List Char → List Char
  | [] => []
  | a :: as =>
    match pyRstrip as with
    | [] => if pyIsSpace a then [] else [a]
    | b :: bs => a :: b :: bs

/-- Python `str.strip()`: drop whitespace on both ends. -/
def pyStrip (l : List Char) : List Char :=
  pyRstrip (l.dropWhile pyIsSpace)

/-- Python `str.lower()` (ASCII case folding). -/
def pyLower (l : List Char) : List Char :=
  l.map Char.toLower

/-- Index of the last occurrence of `c` in `l`, if any
(the search of Python `str.rfind` for a one-character needle). -/
def rlast : List Char → Char → Option Nat
  | [], _ => none
  | a :: as, c =>
    match rlast as c with
    | some i => some (i + 1)
    | none => if a = c then some 0 else none

/-- Python `str.rfind` for a one-character needle: last index, `-1` if absent. -/
def pyRfind (l : List Char) (c : Char) : Int :=
  match rlast l c with
  | some i => (i : Int)
  | none => -1

/-- Index of the first occurrence of `c` in `l`, if any. -/
def ffirst : List Char → Char → Option Nat
  | [], _ => none
  | a :: as, c => if a = c then some 0 else (ffirst as c).map (fun i => i + 1)

/-- Python `str.find` for a one-character needle: first index, `-1` if absent. -/
def pyFind (l : List Char) (c : Char) : Int :=
  match ffirst l c with
  | some i => (i : Int)
  | none => -1

/-- `beginsWith needle hay`: `hay` starts with `needle`. -/
def beginsWith : List Char → List Char → Bool
  | [], _ => true
  | _ :: _, [] => false
  | a :: as, b :: bs => a = b && beginsWith as bs

/-- Python's substring test `needle in hay`. -/
def containsSub (needle : List Char) : List Char → Bool
  | [] => needle.isEmpty
  | b :: bs => beginsWith needle (b :: bs) || containsSub needle bs

/-- `MAX_BODY_LENGTH = 500` from the source. -/
def MAX_BODY_LENGTH : Nat := 500

/-- `_truncate_body` from the source:
```
if not text or len(text) <= max_length: return text
truncated = text[:max_length]
last_space = truncated.rfind(" ")
if last_space > max_length * 0.7:
    truncated = truncated[:last_space]
return truncated.rstrip() + "..."
```
The float comparison `last_space > max_length * 0.7` is modelled by the
exact rational test `10 * last_space > 7 * max_length`; for the only
`max_length` the repository uses (500), IEEE evaluation of
`500 * 0.7` yields exactly `350.0`, so the two tests agree. -/
def _truncate_body (text : List Char) (max_length : Nat := MAX_BODY_LENGTH) : List Char :=
  if text = [] ∨ text.length ≤ max_length then text
  else
    let truncated := text.take max_length
    let last_space : Int := pyRfind truncated ' '
    let truncated2 :=
      if 10 * last_space > 7 * (max_length : Int) then truncated.take last_space.toNat
      else truncated
    pyRstrip truncated2 ++ "...".data

/-- Typed pipeline failures.  The source raises `ValueError` with a message;
the spec's taxonomy names the kinds `MALFORMED_RESPONSE`, `UNSAFE_CONTENT`
and `BELOW_THRESHOLD`.  `belowThreshold` carries the actual score and the
threshold, which the source's f-string message interpolates. -/
inductive PipelineError where
  | malformedResponse (msg : List Char)
  | nsfwContent
  | belowThreshold (score : Int) (min_karma : Int)
deriving DecidableEq, Repr

/-- The RawPost mapping (section 3 of the spec).  A field is `none` when the
key is absent from the Python dict; the embedding assumes present values have
the documented types.  `upvote_ratio` (a Python float) is modelled as a
rational. -/
structure RawPost where
  title : Option (List Char)
  selftext : Option (List Char)
  score : Option Int
  subreddit : Option (List Char)
  redacted_title : Option (List Char)
  redacted_selftext : Option (List Char)
  upvote_ratio : Option Rat
  top_comment : Option (List Char)
  subreddit_subscribers : Option Nat
  subreddit_created_year : Option Int
  subreddit_rule : Option (List Char)
deriving DecidableEq, Repr

/-- A RawPost with every key absent; concrete posts are built from it. -/
def emptyRawPost : RawPost :=
  ⟨none, none, none, none, none, none, none, none, none, none, none⟩

/-- The four clue strings returned by `format_clues_for_game`. -/
structure ClueSet where
  upvoteRatio : List Char
  topComment : List Char
  communityStats : List Char
  sidebarRule : List Char
deriving DecidableEq, Repr

/-- The puzzle payload returned by `format_puzzle_for_api`. -/
structure Puzzle where
  postTitle : List Char
  postBody : List Char
  correctSubreddit : List Char
  clues : ClueSet
  date : List Char
deriving DecidableEq, Repr

/-- `REMOVE_KEYS = {"created_utc", "selection_reason", "full_prompt"}`. -/
def REMOVE_KEYS : List String := ["created_utc", "selection_reason", "full_prompt"]

/-- `_clean_post`: `{key: value for key, value in post.items() if key not in REMOVE_KEYS}`.
The dict is modelled as an association list (Python dicts keep insertion
order; keys are unique, so first-match lookup below agrees with dict lookup). -/
def _clean_post {α : Type} (post : List (String × α)) : List (String × α) :=
  post.filter (fun kv => !(REMOVE_KEYS.contains kv.1))

/-- Python `int()` truncation (toward zero) on a rational. -/
def pyInt (q : Rat) : Int :=
  if 0 ≤ q then q.floor else -((-q).floor)

/-- Number of binary digits of `n`: 0 for 0 and `log2 n + 1` otherwise
(Python's `int.bit_length`).  Written with structural fuel (the first
argument) so that the kernel can evaluate it. -/
def bitlenAux : Nat → Nat → Nat
  | 0, _ => 0
  | fuel + 1, n => if n = 0 then 0 else bitlenAux fuel (n / 2) + 1

/-- `bitlen n` is the number of binary digits of `n`. -/
def bitlen (n : Nat) : Nat := bitlenAux n n

/-- Round `N / D` (for `D ≠ 0`) to the nearest integer, ties to even. -/
def roundHalfEvenDiv (N D : Nat) : Nat :=
  let q := N / D
  let r := N % D
  if 2 * r < D then q
  else if D < 2 * r then q + 1
  else if q % 2 = 0 then q else q + 1

/-- IEEE-754 binary64 (round-to-nearest, ties-to-even) rounding of the
rational `n / d` (`d ≠ 0`), as a mantissa–exponent pair `(M, E)` whose value
is `M * 2^E` with `2^52 ≤ M ≤ 2^53` (or `(0, 0)` for `n = 0`).  CPython's
`n / d` on ints computes exactly this correctly rounded double.  The
exponent is left unbounded: this agrees bit-for-bit with CPython whenever
the quotient is below the double overflow threshold (about 1.8e308, far
beyond any subscriber count); past it CPython raises `OverflowError`
instead of producing a float, which the totality of this model idealizes
away just as `Nat` idealizes Python's unbounded `int`. -/
def float64Div (n d : Nat) : Nat × Int :=
  if n = 0 then (0, 0)
  else
    let e0 : Int := (bitlen n : Int) - (bitlen d : Int) - 53
    let N := if 0 ≤ e0 then n else n * 2 ^ ((-e0).toNat)
    let D := if 0 ≤ e0 then d * 2 ^ (e0.toNat) else d
    if N < 2 ^ 53 * D then (roundHalfEvenDiv N D, e0)
    else (roundHalfEvenDiv N (2 * D), e0 + 1)

/-- The tenths integer printed by CPython's `f"{n / d:.1f}"`: ten times the
exact value of the binary64 quotient `n / d`, rounded to the nearest
integer with ties to even (CPython's float repr/format rounds the exact
value of the double in round-half-even mode). -/
def fmtTenths (n d : Nat) : Nat :=
  let p := float64Div n d
  if 0 ≤ p.2 then p.1 * 10 * 2 ^ (p.2.toNat)
  else roundHalfEvenDiv (p.1 * 10) (2 ^ ((-p.2).toNat))

/-- `f"{count / scale:.1f}".rstrip("0").rstrip(".")` from `_format_subscribers`:
the one-decimal rendering of the double `count / scale`, with the trailing
`0` and then the trailing `.` stripped. -/
def fmtOneDecimalStripped (count scale : Nat) : String :=
  let t := fmtTenths count scale
  if t % 10 = 0 then toString (t / 10)
  else toString (t / 10) ++ "." ++ toString (t % 10)

/-- `_format_subscribers` from the source. -/
def _format_subscribers (count : Nat) : String :=
  if 1000000 ≤ count then fmtOneDecimalStripped count 1000000 ++ "M"
  else if 1000 ≤ count then fmtOneDecimalStripped count 1000 ++ "K"
  else toString count

/-- `INVALID_COMMENTS = {"[removed]", "[deleted]", ""}` (the source lowers the
entries before the membership test; they are already lower-case). -/
def INVALID_COMMENTS : List (List Char) := ["[removed]".data, "[deleted]".data, "".data]

/-- `format_clues_for_game` from the source. -/
def format_clues_for_game (post : RawPost) : ClueSet :=
  let ratio := (post.upvote_ratio).getD 0
  let upvoteRatioClue :=
    if ratio ≠ 0 then (toString (pyInt (ratio * 100))).data ++ "% upvoted".data
    else "Unknown".data
  let top_comment := (post.top_comment).getD []
  let top_comment :=
    if pyLower (pyStrip top_comment) ∈ INVALID_COMMENTS then [] else top_comment
  let top_comment :=
    if 200 < top_comment.length then top_comment.take 197 ++ "...".data
    else top_comment
  let topCommentClue :=
    if top_comment ≠ [] then ('"' :: top_comment) ++ ['"']
    else "No valid comments".data
  let subscribers := (post.subreddit_subscribers).getD 0
  let communityStats :=
    match post.subreddit_created_year with
    | some y =>
      if subscribers ≠ 0 ∧ y ≠ 0 then
        (_format_subscribers subscribers).data ++ " members, founded ".data ++ (toString y).data
      else if subscribers ≠ 0 then (_format_subscribers subscribers).data ++ " members".data
      else "Unknown".data
    | none =>
      if subscribers ≠ 0 then (_format_subscribers subscribers).data ++ " members".data
      else "Unknown".data
  let sidebarRule := (post.subreddit_rule).getD "No specific rules".data
  ⟨upvoteRatioClue, topCommentClue, communityStats, sidebarRule⟩

/-- The fixed keyword list of `_is_nsfw` (note `"sex "` carries a trailing
space: the match is raw substring, not word boundary). -/
def NSFW_KEYWORDS : List (List Char) :=
  ["nsfw".data, "porn".data, "sex ".data, "sexual".data, "explicit".data,
   "nude".data, "nudity".data, "rape".data, "gore".data, "blood".data,
   "violence".data, "fuck".data, "dick".data, "pussy".data]

/-- `_is_nsfw` from the source: empty text is safe, otherwise any keyword
occurring as a substring of the lower-cased text flags it. -/
def _is_nsfw (text : List Char) : Bool :=
  if text = [] then false
  else NSFW_KEYWORDS.any (fun token => containsSub token (pyLower text))

/-- `_ensure_sfw` from the source (raises on an NSFW title or body). -/
def _ensure_sfw (post : RawPost) : Except PipelineError Unit :=
  let title := (post.title).getD []
  let body := (post.selftext).getD []
  if _is_nsfw title || _is_nsfw body then Except.error PipelineError.nsfwContent
  else Except.ok ()

/-- `_ensure_min_karma` from the source (`abs(score) < min_karma` raises,
message carrying the actual score and the threshold). -/
def _ensure_min_karma (post : RawPost) (min_karma : Int := 1000) : Except PipelineError Unit :=
  let score := (post.score).getD 0
  if |score| < min_karma then Except.error (PipelineError.belowThreshold score min_karma)
  else Except.ok ()

/-- `_extract_json` from the source, up to the `json.loads` call: locate the
first `"{"` and the last `"}"`, raise unless the latter comes after the
former, and return the enclosed slice (which the source feeds to
`json.loads`). -/
def _extract_json (text : List Char) : Except PipelineError (List Char) :=
  let start := pyFind text (Char.ofNat 123)
  let stop := pyRfind text (Char.ofNat 125)
  if start = -1 ∨ stop ≤ start then
    Except.error (PipelineError.malformedResponse "Model response did not contain a JSON object.".data)
  else
    Except.ok ((text.drop start.toNat).take (stop.toNat + 1 - start.toNat))

/-- `format_puzzle_for_api` from the source.  `today` stands for
`datetime.now().strftime("%Y-%m-%d")`; note Python's `date or ...` falls back
to `today` both when `date` is `None` and when it is the empty string. -/
def format_puzzle_for_api (post : RawPost) (date : Option (List Char)) (today : List Char) : Puzzle :=
  let clues := format_clues_for_game post
  let post_body := (post.redacted_selftext).getD ((post.selftext).getD [])
  let post_body := _truncate_body post_body
  { postTitle := (post.redacted_title).getD ((post.title).getD [])
    postBody := post_body
    correctSubreddit := (post.subreddit).getD []
    clues := clues
    date := match date with
            | some d => if d ≠ [] then d else today
            | none => today }

/-- `get_interesting_reddit_post` from the source, after the model call:
`text` is the response text, `loads` stands for `json.loads` composed with
the typed reading of the dict (external JSON decoding; `none` models a
`json.JSONDecodeError`).  `_clean_post` only removes the transient keys,
none of which is a modelled RawPost field, so it is the identity on the
typed view (it is verified separately on the dict representation). -/
def get_interesting_reddit_post (loads : List Char → Option RawPost)
    (text : List Char) : Except PipelineError RawPost :=
  if text = [] then
    Except.error (PipelineError.malformedResponse "Model response was empty.".data)
  else
    match _extract_json text with
    | Except.error e => Except.error e
    | Except.ok span =>
      match loads span with
      | none => Except.error (PipelineError.malformedResponse "Invalid JSON in model response.".data)
      | some post =>
        match _ensure_sfw post with
        | Except.error e => Except.error e
        | Except.ok _ =>
          match _ensure_min_karma post 1000 with
          | Except.error e => Except.error e
          | Except.ok _ => Except.ok post

instance {ε α : Type} [DecidableEq ε] [DecidableEq α] : DecidableEq (Except ε α)
  | Except.error a, Except.error b =>
    if h : a = b then Decidable.isTrue (by rw [h])
    else Decidable.isFalse (by intro hh; cases hh; exact h rfl)
  | Except.error _, Except.ok _ => Decidable.isFalse (by intro h; cases h)
  | Except.ok _, Except.error _ => Decidable.isFalse (by intro h; cases h)
  | Except.ok a, Except.ok b =>
    if h : a = b then Decidable.isTrue (by rw [h])
    else Decidable.isFalse (by intro hh; cases hh; exact h rfl)

/-- C3: `_ensure_min_karma(post, minKarma)` (default 1000) fails with a
BELOW_THRESHOLD error carrying the actual score and the threshold if and only
if the absolute value of the post's score is strictly below `minKarma`;
score -1000 passes, score 999 fails, and score -999 fails. -/
theorem ensure_min_karma_spec :
    (∀ (post : RawPost) (mk : Int),
      ((∃ e, _ensure_min_karma post mk = Except.error e) ↔ |(post.score).getD 0| < mk)
      ∧ (_ensure_min_karma post mk
            = Except.error (PipelineError.belowThreshold ((post.score).getD 0) mk)
          ↔ |(post.score).getD 0| < mk))
    ∧ _ensure_min_karma { emptyRawPost with score := some (-1000) } = Except.ok ()
    ∧ _ensure_min_karma { emptyRawPost with score := some 999 }
        = Except.error (PipelineError.belowThreshold 999 1000)
    ∧ _ensure_min_karma { emptyRawPost with score := some (-999) }
        = Except.error (PipelineError.belowThreshold (-999) 1000) := by
  refine ⟨fun post mk => ?_, by decide, by decide, by decide⟩
  unfold _ensure_min_karma
  by_cases h : |(post.score).getD 0| < mk <;> simp [h]

/-- C6: `_format_subscribers` renders counts below 1000 as the plain integer,
counts in [1000, 1000000) over thousands to one decimal place (the program's
`f"{count / 1000:.1f}"`: the binary64 quotient, decimal-rounded half-even)
with trailing `.0`/zero stripped, suffixed `K`, counts from 1000000 the same
over millions suffixed `M`; 999 → "999", 1000 → "1K", 1500 → "1.5K",
2000000 → "2M", 1500000 → "1.5M".  The last three conjuncts pin the model to
CPython's double rounding at decimal ties: 1050/1000 and 1150/1000 are not
representable doubles and both format as "1.1", while 1250/1000 is exactly
representable and even-rounds to "1.2". -/
theorem format_subscribers_spec :
    (∀ count : Nat, 1000000 ≤ count →
        _format_subscribers count = fmtOneDecimalStripped count 1000000 ++ "M")
    ∧ (∀ count : Nat, 1000 ≤ count → count < 1000000 →
        _format_subscribers count = fmtOneDecimalStripped count 1000 ++ "K")
    ∧ (∀ count : Nat, count < 1000 → _format_subscribers count = toString count)
    ∧ _format_subscribers 999 = "999"
    ∧ _format_subscribers 1000 = "1K"
    ∧ _format_subscribers 1500 = "1.5K"
    ∧ _format_subscribers 2000000 = "2M"
    ∧ _format_subscribers 1500000 = "1.5M"
    ∧ _format_subscribers 1050 = "1.1K"
    ∧ _format_subscribers 1150 = "1.1K"
    ∧ _format_subscribers 1250 = "1.2K" := by
  refine ⟨fun count h => ?_, fun count h1 h2 => ?_, fun count h => ?_,
    by decide, by decide, by decide, by decide, by decide,
    by decide, by decide, by decide⟩
  · rw [_format_subscribers, if_pos h]
  · rw [_format_subscribers, if_neg (by omega), if_pos h1]
  · rw [_format_subscribers, if_neg (by omega), if_neg (by omega)]

/-- C6 witness: the three general clauses of `format_subscribers_spec`
instantiated at 500, 250000 and 2500000. -/
theorem format_subscribers_spec_witness :
    _format_subscribers 2500000 = fmtOneDecimalStripped 2500000 1000000 ++ "M"
    ∧ _format_subscribers 250000 = fmtOneDecimalStripped 250000 1000 ++ "K"
    ∧ _format_subscribers 500 = toString 500 :=
  ⟨format_subscribers_spec.1 2500000 (by decide),
   format_subscribers_spec.2.1 250000 (by decide) (by decide),
   format_subscribers_spec.2.2.1 500 (by decide)⟩


/-- C10: `_clean_post` removes exactly the keys in `REMOVE_KEYS`
(`created_utc`, `selection_reason`, `full_prompt`): looking up a removed key
in the result yields nothing, any other key maps to its value in the input,
and no surviving entry carries a removed key. -/
theorem clean_post_spec :
    ∀ (α : Type) (post : List (String × α)) (k : String),
      (List.lookup k (_clean_post post)
          = if k ∈ REMOVE_KEYS then none else List.lookup k post)
      ∧ ((_clean_post post).all (fun kv => !(REMOVE_KEYS.contains kv.1)) = true) := by
  intro α post k
  induction post with
  | nil => simp [_clean_post]
  | cons kv rest ih =>
    obtain ⟨k1, v1⟩ := kv
    obtain ⟨ih1, ih2⟩ := ih
    rw [_clean_post] at ih1 ih2 ⊢
    rw [List.filter_cons]
    by_cases hkv : k1 ∈ REMOVE_KEYS
    · have hc : (!REMOVE_KEYS.contains (k1, v1).1) = false := by
        simp [List.contains, List.elem_iff, hkv]
      rw [hc]
      simp only [Bool.false_eq_true, if_false]
      refine ⟨?_, ih2⟩
      rw [ih1]
      by_cases hk : k ∈ REMOVE_KEYS
      · simp [hk]
      · have hne : (k == k1) = false := by
          simp only [beq_eq_false_iff_ne, ne_eq]
          intro h
          exact hk (h ▸ hkv)
        simp [hk, List.lookup_cons, hne]
    · have hc : (!REMOVE_KEYS.contains (k1, v1).1) = true := by
        simp [List.contains, List.elem_iff, hkv]
      rw [hc]
      simp only [if_true]
      constructor
      · rw [List.lookup_cons, List.lookup_cons]
        by_cases hk : k = k1
        · subst hk
          simp [if_neg hkv]
        · have hne : (k == k1) = false := by simpa using hk
          rw [hne]
          simpa using ih1
      · rw [List.all_cons, hc]
        simp


theorem beginsWith_iff (needle : List Char) :
    ∀ hay : List Char, beginsWith needle hay = true ↔ ∃ r, hay = needle ++ r := by
  induction needle with
  | nil => intro hay; simp [beginsWith]
  | cons a as ih =>
    intro hay
    cases hay with
    | nil =>
      rw [beginsWith]
      simp
    | cons b bs =>
      rw [beginsWith, Bool.and_eq_true, decide_eq_true_eq, ih]
      constructor
      · rintro ⟨hab, r, hr⟩
        exact ⟨r, by rw [List.cons_append, ← hab, ← hr]⟩
      · rintro ⟨r, hr⟩
        rw [List.cons_append] at hr
        injection hr with h1 h2
        exact ⟨h1.symm, r, h2⟩

theorem nil_eq_append_iff {l m : List Char} (h : ([] : List Char) = l ++ m) :
    l = [] ∧ m = [] := by
  have hlen := congrArg List.length h
  simp only [List.length_nil, List.length_append] at hlen
  constructor
  · exact List.length_eq_zero.mp (by omega)
  · exact List.length_eq_zero.mp (by omega)

theorem containsSub_iff (needle : List Char) :
    ∀ hay : List Char, containsSub needle hay = true ↔ ∃ l r, hay = l ++ needle ++ r := by
  intro hay
  induction hay with
  | nil =>
    rw [containsSub]
    simp only [List.isEmpty_iff]
    constructor
    · rintro rfl
      exact ⟨[], [], rfl⟩
    · rintro ⟨l, r, h⟩
      obtain ⟨h1, _⟩ := nil_eq_append_iff h
      exact (nil_eq_append_iff h1.symm).2
  | cons b bs ih =>
    rw [containsSub]
    simp only [Bool.or_eq_true, ih, beginsWith_iff]
    constructor
    · rintro (⟨r, hr⟩ | ⟨l, r, hlr⟩)
      · exact ⟨[], r, by simpa using hr⟩
      · exact ⟨b :: l, r, by simp [hlr]⟩
    · rintro ⟨l, r, hlr⟩
      cases l with
      | nil => exact Or.inl ⟨r, by simpa using hlr⟩
      | cons x l' =>
        right
        rw [List.cons_append, List.cons_append] at hlr
        injection hlr with h1 h2
        exact ⟨l', r, h2⟩

/-- C4: `_is_nsfw` holds exactly when some fixed keyword occurs as a raw
substring of the lower-cased text (case-insensitive, not word-boundary
based), empty text is safe, and `_ensure_sfw` fails (with the
UNSAFE_CONTENT kind) exactly when `_is_nsfw` holds of the post's title or
of its body. -/
theorem is_nsfw_sfw_spec :
    (∀ text : List Char,
      (_is_nsfw text = true
        ↔ ∃ kw, kw ∈ NSFW_KEYWORDS ∧ ∃ l r, pyLower text = l ++ kw ++ r))
    ∧ _is_nsfw [] = false
    ∧ (∀ post : RawPost,
        (_ensure_sfw post = Except.error PipelineError.nsfwContent
          ↔ (_is_nsfw ((post.title).getD []) = true
              ∨ _is_nsfw ((post.selftext).getD []) = true))
        ∧ ((∃ e, _ensure_sfw post = Except.error e)
          ↔ (_is_nsfw ((post.title).getD []) = true
              ∨ _is_nsfw ((post.selftext).getD []) = true))) := by
  refine ⟨fun text => ?_, by decide, fun post => ?_⟩
  · rw [_is_nsfw]
    by_cases h : text = []
    · subst h
      rw [if_pos rfl]
      constructor
      · intro hfalse
        exact absurd hfalse (by decide)
      · rintro ⟨kw, hkw, l, r, habs⟩
        have hnil : pyLower [] = [] := rfl
        rw [hnil] at habs
        obtain ⟨h1, _⟩ := nil_eq_append_iff habs
        have hkwnil : kw = [] := (nil_eq_append_iff h1.symm).2
        subst hkwnil
        have : ([] : List Char) ∈ NSFW_KEYWORDS := hkw
        exact absurd this (by decide)
    · rw [if_neg h, List.any_eq_true]
      constructor
      · rintro ⟨kw, hkw, hc⟩
        exact ⟨kw, hkw, (containsSub_iff kw (pyLower text)).mp hc⟩
      · rintro ⟨kw, hkw, hlr⟩
        exact ⟨kw, hkw, (containsSub_iff kw (pyLower text)).mpr hlr⟩
  · rw [_ensure_sfw]
    by_cases hb : (_is_nsfw ((post.title).getD []) || _is_nsfw ((post.selftext).getD [])) = true
    · have hp : _is_nsfw ((post.title).getD []) = true
          ∨ _is_nsfw ((post.selftext).getD []) = true := by
        simpa using hb
      rw [if_pos hb]
      exact ⟨⟨fun _ => hp, fun _ => rfl⟩,
             ⟨fun _ => hp, fun _ => ⟨PipelineError.nsfwContent, rfl⟩⟩⟩
    · have hd : ¬(_is_nsfw ((post.title).getD []) = true
          ∨ _is_nsfw ((post.selftext).getD []) = true) := by
        intro hor
        apply hb
        rcases hor with h1 | h1 <;> simp [h1]
      rw [if_neg hb]
      refine ⟨⟨fun hcontra => ?_, fun hor => absurd hor hd⟩,
              ⟨fun hcontra => ?_, fun hor => absurd hor hd⟩⟩
      · exact Except.noConfusion hcontra
      · obtain ⟨e, he⟩ := hcontra
        exact Except.noConfusion he

theorem pyRstrip_length_le (l : List Char) : (pyRstrip l).length ≤ l.length := by
  induction l with
  | nil => simp [pyRstrip]
  | cons a as ih =>
    rw [pyRstrip]
    cases hr : pyRstrip as with
    | nil =>
      dsimp only
      by_cases hsp : pyIsSpace a = true
      · rw [if_pos hsp]
        simp
      · rw [if_neg hsp]
        simp only [List.length_cons, List.length_nil]
        omega
    | cons b bs =>
      dsimp only
      rw [hr] at ih
      simp only [List.length_cons] at ih ⊢
      omega

theorem truncate_body_len_le (text : List Char) (m : Nat) :
    (_truncate_body text m).length ≤ m + 3 := by
  rw [_truncate_body]
  split
  · rename_i h
    rcases h with h | h
    · subst h; simp
    · omega
  · simp only [List.length_append]
    have hd : ("...".data).length = 3 := by decide
    rw [hd]
    have hb : ∀ l2 : List Char, l2.length ≤ m → (pyRstrip l2).length + 3 ≤ m + 3 :=
      fun l2 h2 => by have := pyRstrip_length_le l2; omega
    split
    · apply hb
      rw [List.length_take, List.length_take]
      omega
    · apply hb
      rw [List.length_take]
      omega

/-- C2 counterexample: 501 non-space characters truncate to 503 characters
(the appended ellipsis exceeds the 500-character window), both at
`_truncate_body` directly and in the assembled puzzle's `postBody`. -/
theorem truncate_body_over_bound :
    (_truncate_body (List.replicate 501 'a')).length = 503
    ∧ ¬((_truncate_body (List.replicate 501 'a')).length ≤ 500)
    ∧ (format_puzzle_for_api
        { emptyRawPost with redacted_selftext := some (List.replicate 501 'a') }
        none []).postBody.length = 503 := by
  refine ⟨by decide, by decide, by decide⟩

/-- C2 amended: `_truncate_body(text, maxLength)` returns at most
`maxLength + 3` characters (the window plus the three-character ellipsis),
and the assembled Puzzle's `postBody` is at most 503 characters long. -/
theorem truncate_body_length_spec :
    (∀ (text : List Char) (m : Nat), (_truncate_body text m).length ≤ m + 3)
    ∧ (∀ (post : RawPost) (date : Option (List Char)) (today : List Char),
        (format_puzzle_for_api post date today).postBody.length ≤ 503) := by
  refine ⟨truncate_body_len_le, fun post date today => ?_⟩
  have h := truncate_body_len_le ((post.redacted_selftext).getD ((post.selftext).getD [])) 500
  simpa [format_puzzle_for_api, MAX_BODY_LENGTH] using h

/-- C8 counterexample: supplying the empty string as the date yields the
current date in the assembled puzzle, not the supplied date (Python's
`date or datetime.now()...` treats the empty string as falsy). -/
theorem format_puzzle_date_counterexample :
    (format_puzzle_for_api emptyRawPost (some []) "2026-10-12".data).date
        = "2026-10-12".data
    ∧ (format_puzzle_for_api emptyRawPost (some []) "2026-10-12".data).date ≠ ([] : List Char) := by
  refine ⟨by decide, by decide⟩

/-- C8 amended: `format_puzzle_for_api` takes `postTitle` from
`redacted_title` when present else `title`; `postBody` is the Bounded
Truncator (window 500) applied to `redacted_selftext` when present else
`selftext`; `correctSubreddit` comes from `subreddit`; `clues` is
`format_clues_for_game` of the full post; `date` is the supplied date when
non-empty and the current date otherwise. -/
theorem format_puzzle_spec :
    ∀ (post : RawPost) (date : Option (List Char)) (today : List Char),
      (format_puzzle_for_api post date today).postTitle
          = (post.redacted_title).getD ((post.title).getD [])
      ∧ (format_puzzle_for_api post date today).postBody
          = _truncate_body ((post.redacted_selftext).getD ((post.selftext).getD [])) 500
      ∧ (format_puzzle_for_api post date today).correctSubreddit = (post.subreddit).getD []
      ∧ (format_puzzle_for_api post date today).clues = format_clues_for_game post
      ∧ (format_puzzle_for_api post date today).date
          = (match date with
             | some d => if d = [] then today else d
             | none => today) := by
  intro post date today
  refine ⟨rfl, rfl, rfl, rfl, ?_⟩
  cases date with
  | none => rfl
  | some d =>
    by_cases hd : d = []
    · simp [format_puzzle_for_api, hd]
    · simp [format_puzzle_for_api, hd]

theorem quote_ne_novalid (xs : List Char) :
    ('"' :: xs) ++ ['"'] ≠ "No valid comments".data := by
  intro h
  rw [List.cons_append] at h
  have hN : "No valid comments".data = 'N' :: "o valid comments".data := rfl
  rw [hN] at h
  injection h with h1 _
  exact absurd h1 (by decide)

theorem nonsentinel_ne_nil (tc : List Char)
    (hn : pyLower (pyStrip tc) ∉ INVALID_COMMENTS) : tc ≠ [] := by
  intro hnil
  apply hn
  rw [hnil]
  decide

/-- C5 counterexample: for a valid 250-character comment the top-comment
clue is 202 characters long (197 kept + 3-character ellipsis + 2 quotes) —
neither 201 in total nor 201-plus-quotes (203). -/
theorem top_comment_len_counterexample :
    (format_clues_for_game
      { emptyRawPost with top_comment := some (List.replicate 250 'a') }).topComment.length = 202
    ∧ (format_clues_for_game
      { emptyRawPost with top_comment := some (List.replicate 250 'a') }).topComment.length ≠ 203
    ∧ (format_clues_for_game
      { emptyRawPost with top_comment := some (List.replicate 250 'a') }).topComment.length ≠ 201 := by
  refine ⟨by decide, by decide, by decide⟩

/-- C5 amended: the top-comment clue is "No valid comments" exactly when the
comment text, trimmed and lower-cased, is empty, "[removed]" or "[deleted]";
otherwise the text is truncated to its first 197 characters plus "..." when
longer than 200 characters and the result is wrapped in double quotation
marks; for a valid 250-character comment the output is the quoted first 197
characters plus ellipsis — 200 characters between the quotes, 202 in all. -/
theorem top_comment_clue_spec :
    (∀ post : RawPost,
      ((format_clues_for_game post).topComment = "No valid comments".data
        ↔ pyLower (pyStrip ((post.top_comment).getD [])) ∈ INVALID_COMMENTS)
      ∧ (pyLower (pyStrip ((post.top_comment).getD [])) ∉ INVALID_COMMENTS →
          (200 < ((post.top_comment).getD []).length →
            (format_clues_for_game post).topComment
              = ('"' :: (((post.top_comment).getD []).take 197 ++ "...".data)) ++ ['"'])
          ∧ (((post.top_comment).getD []).length ≤ 200 →
            (format_clues_for_game post).topComment
              = ('"' :: (post.top_comment).getD []) ++ ['"'])))
    ∧ (format_clues_for_game
        { emptyRawPost with top_comment := some (List.replicate 250 'a') }).topComment
        = ('"' :: (List.replicate 197 'a' ++ "...".data)) ++ ['"'] := by
  refine ⟨fun post => ?_, by decide⟩
  simp only [format_clues_for_game]
  by_cases hs : pyLower (pyStrip ((post.top_comment).getD [])) ∈ INVALID_COMMENTS
  · rw [if_pos hs]
    rw [if_neg (show ¬(200 < ([] : List Char).length) by simp)]
    rw [if_neg (show ¬(([] : List Char) ≠ []) by simp)]
    exact ⟨⟨fun _ => hs, fun _ => rfl⟩, fun hn => absurd hs hn⟩
  · rw [if_neg hs]
    have hne := nonsentinel_ne_nil _ hs
    by_cases hlen : 200 < ((post.top_comment).getD []).length
    · rw [if_pos hlen]
      have hne2 : ((post.top_comment).getD []).take 197 ++ "...".data ≠ [] := by
        intro h
        have h3 := congrArg List.length h
        rw [List.length_append] at h3
        have hd3 : ("...".data).length = 3 := by decide
        rw [hd3, List.length_nil] at h3
        omega
      rw [if_pos hne2]
      constructor
      · constructor
        · intro h
          exact absurd h (quote_ne_novalid _)
        · intro h
          exact absurd h hs
      · intro _
        exact ⟨fun _ => rfl, fun h => absurd hlen (by omega)⟩
    · rw [if_neg hlen]
      rw [if_pos hne]
      constructor
      · constructor
        · intro h
          exact absurd h (quote_ne_novalid _)
        · intro h
          exact absurd h hs
      · intro _
        exact ⟨fun h => absurd h hlen, fun _ => rfl⟩

/-- C5 witness: the general clauses of `top_comment_clue_spec` instantiated
at a valid short comment. -/
theorem top_comment_clue_spec_witness :
    pyLower (pyStrip ("ok".data)) ∉ INVALID_COMMENTS
    ∧ (format_clues_for_game { emptyRawPost with top_comment := some "ok".data }).topComment
        = ('"' :: "ok".data) ++ ['"'] :=
  ⟨by decide,
   ((top_comment_clue_spec.1 { emptyRawPost with top_comment := some "ok".data }).2
      (by decide)).2 (by decide)⟩

/-- C1 counterexample: `format_puzzle_for_api` is a total function and
assembles a Puzzle even from a post on which both validators fail (here
title "nsfw" and score 0), so assembly itself does not imply validation. -/
theorem puzzle_assembly_no_validation :
    (format_puzzle_for_api
        { emptyRawPost with title := some "nsfw".data, score := some 0 }
        none "2026-01-01".data).postTitle = "nsfw".data
    ∧ _ensure_sfw { emptyRawPost with title := some "nsfw".data, score := some 0 }
        = Except.error PipelineError.nsfwContent
    ∧ _ensure_min_karma { emptyRawPost with title := some "nsfw".data, score := some 0 }
        = Except.error (PipelineError.belowThreshold 0 1000) := by
  refine ⟨by decide, by decide, by decide⟩

/-- C1 amended: validation is enforced by the pipeline entry point, not by
the assembler — every post `get_interesting_reddit_post` returns (and hence
every post `main` passes to `format_puzzle_for_api`) satisfies both
`_ensure_sfw` and `_ensure_min_karma`. -/
theorem pipeline_validates_before_assembly :
    ∀ (loads : List Char → Option RawPost) (text : List Char) (post : RawPost),
      get_interesting_reddit_post loads text = Except.ok post →
      _ensure_sfw post = Except.ok () ∧ _ensure_min_karma post 1000 = Except.ok () := by
  intro loads text post h
  rw [get_interesting_reddit_post] at h
  by_cases ht : text = []
  · rw [if_pos ht] at h
    exact Except.noConfusion h
  · rw [if_neg ht] at h
    cases he : _extract_json text with
    | error e =>
      rw [he] at h
      dsimp only at h
      exact Except.noConfusion h
    | ok span =>
      rw [he] at h
      dsimp only at h
      cases hl : loads span with
      | none =>
        rw [hl] at h
        dsimp only at h
        exact Except.noConfusion h
      | some p =>
        rw [hl] at h
        dsimp only at h
        cases hsfw : _ensure_sfw p with
        | error e =>
          rw [hsfw] at h
          dsimp only at h
          exact Except.noConfusion h
        | ok u =>
          rw [hsfw] at h
          dsimp only at h
          cases hk : _ensure_min_karma p 1000 with
          | error e =>
            rw [hk] at h
            dsimp only at h
            exact Except.noConfusion h
          | ok u2 =>
            rw [hk] at h
            dsimp only at h
            injection h with h2
            subst h2
            cases u
            cases u2
            exact ⟨hsfw, hk⟩

/-- C1 witness: a run of the modelled pipeline that returns a post, whose
validation results are obtained through `pipeline_validates_before_assembly`. -/
theorem pipeline_validates_before_assembly_witness :
    _ensure_sfw { emptyRawPost with score := some 1000 } = Except.ok ()
    ∧ _ensure_min_karma { emptyRawPost with score := some 1000 } 1000 = Except.ok () :=
  pipeline_validates_before_assembly
    (fun _ => some { emptyRawPost with score := some 1000 })
    [Char.ofNat 123, Char.ofNat 125]
    { emptyRawPost with score := some 1000 }
    (by decide)

theorem rlast_sound (c : Char) :
    ∀ (l : List Char) (i : Nat), rlast l c = some i →
      i < l.length ∧ l.getD i 'x' = c := by
  intro l
  induction l with
  | nil =>
    intro i h
    exact Option.noConfusion h
  | cons a as ih =>
    intro i h
    rw [rlast] at h
    cases hr : rlast as c with
    | some j =>
      rw [hr] at h
      dsimp only at h
      injection h with h2
      subst h2
      obtain ⟨h3, h4⟩ := ih j hr
      refine ⟨by simpa using h3, ?_⟩
      rw [List.getD_cons_succ]
      exact h4
    | none =>
      rw [hr] at h
      dsimp only at h
      by_cases hac : a = c
      · rw [if_pos hac] at h
        injection h with h2
        subst h2
        exact ⟨by simp, by simpa using hac⟩
      · rw [if_neg hac] at h
        exact Option.noConfusion h

theorem rlast_ge (c : Char) :
    ∀ (l : List Char) (j : Nat), j < l.length → l.getD j 'x' = c →
      ∃ i, rlast l c = some i ∧ j ≤ i := by
  intro l
  induction l with
  | nil =>
    intro j hj _
    simp at hj
  | cons a as ih =>
    intro j hj hc
    rw [rlast]
    cases hr : rlast as c with
    | some i =>
      refine ⟨i + 1, by dsimp only, ?_⟩
      cases j with
      | zero => omega
      | succ j' =>
        rw [List.getD_cons_succ] at hc
        obtain ⟨i2, hr2, hle⟩ := ih j' (by simpa using hj) hc
        rw [hr] at hr2
        injection hr2 with h3
        omega
    | none =>
      cases j with
      | zero =>
        rw [List.getD_cons_zero] at hc
        refine ⟨0, ?_, le_refl 0⟩
        dsimp only
        rw [if_pos hc]
      | succ j' =>
        rw [List.getD_cons_succ] at hc
        obtain ⟨i2, hr2, _⟩ := ih j' (by simpa using hj) hc
        rw [hr] at hr2
        exact Option.noConfusion hr2

theorem ffirst_sound (c : Char) :
    ∀ (l : List Char) (i : Nat), ffirst l c = some i →
      i < l.length ∧ l.getD i 'x' = c := by
  intro l
  induction l with
  | nil =>
    intro i h
    exact Option.noConfusion h
  | cons a as ih =>
    intro i h
    rw [ffirst] at h
    by_cases hac : a = c
    · rw [if_pos hac] at h
      injection h with h2
      subst h2
      exact ⟨by simp, by simpa using hac⟩
    · rw [if_neg hac] at h
      cases hf : ffirst as c with
      | none =>
        rw [hf] at h
        exact Option.noConfusion h
      | some j =>
        rw [hf] at h
        dsimp only [Option.map] at h
        injection h with h2
        subst h2
        obtain ⟨h3, h4⟩ := ih j hf
        refine ⟨by simpa using h3, ?_⟩
        rw [List.getD_cons_succ]
        exact h4

theorem ffirst_le (c : Char) :
    ∀ (l : List Char) (j : Nat), j < l.length → l.getD j 'x' = c →
      ∃ i, ffirst l c = some i ∧ i ≤ j := by
  intro l
  induction l with
  | nil =>
    intro j hj _
    simp at hj
  | cons a as ih =>
    intro j hj hc
    rw [ffirst]
    by_cases hac : a = c
    · exact ⟨0, by rw [if_pos hac], Nat.zero_le j⟩
    · rw [if_neg hac]
      cases j with
      | zero =>
        rw [List.getD_cons_zero] at hc
        exact absurd hc hac
      | succ j' =>
        rw [List.getD_cons_succ] at hc
        obtain ⟨i2, hf2, hle⟩ := ih j' (by simpa using hj) hc
        rw [hf2]
        exact ⟨i2 + 1, rfl, by omega⟩

theorem extract_json_error_shape (text : List Char) (e : PipelineError)
    (h : _extract_json text = Except.error e) :
    e = PipelineError.malformedResponse "Model response did not contain a JSON object.".data := by
  rw [_extract_json] at h
  split at h
  · injection h with h2
    exact h2.symm
  · exact Except.noConfusion h

theorem ensure_sfw_error_shape (post : RawPost) (e : PipelineError)
    (h : _ensure_sfw post = Except.error e) : e = PipelineError.nsfwContent := by
  rw [_ensure_sfw] at h
  split at h
  · injection h with h2
    exact h2.symm
  · exact Except.noConfusion h

theorem ensure_min_karma_error_shape (post : RawPost) (mk : Int) (e : PipelineError)
    (h : _ensure_min_karma post mk = Except.error e) :
    e = PipelineError.belowThreshold ((post.score).getD 0) mk := by
  rw [_ensure_min_karma] at h
  split at h
  · injection h with h2
    exact h2.symm
  · exact Except.noConfusion h

/-- C9: `_extract_json` fails (with the MALFORMED_RESPONSE kind) exactly
when the text holds no `"{"` followed later by a `"}"`; on success it returns
the slice from the first `"{"` to the last `"}"` inclusive (handed to
`json.loads`); and the entry point fails with a MALFORMED_RESPONSE error
exactly when the response text is empty, extraction fails, or the extracted
slice does not decode as JSON. -/
theorem extract_json_spec :
    ∀ text : List Char,
      ((∃ msg, _extract_json text = Except.error (PipelineError.malformedResponse msg))
        ↔ ¬∃ i j : Nat, i < j ∧ j < text.length
            ∧ text.getD i 'x' = Char.ofNat 123 ∧ text.getD j 'x' = Char.ofNat 125)
      ∧ (∀ s e : Int, pyFind text (Char.ofNat 123) = s → pyRfind text (Char.ofNat 125) = e →
          ¬(s = -1 ∨ e ≤ s) →
          _extract_json text
            = Except.ok ((text.drop s.toNat).take (e.toNat + 1 - s.toNat)))
      ∧ (∀ loads : List Char → Option RawPost,
          (∃ msg, get_interesting_reddit_post loads text
              = Except.error (PipelineError.malformedResponse msg))
          ↔ (text = []
             ∨ (∃ msg, _extract_json text = Except.error (PipelineError.malformedResponse msg))
             ∨ (∃ span, _extract_json text = Except.ok span ∧ loads span = none))) := by
  intro text
  refine ⟨?_, ?_, ?_⟩
  · rw [_extract_json]
    by_cases hcond : pyFind text (Char.ofNat 123) = -1
        ∨ pyRfind text (Char.ofNat 125) ≤ pyFind text (Char.ofNat 123)
    · rw [if_pos hcond]
      constructor
      · rintro - ⟨i, j, hij, hj, hdi, hdj⟩
        obtain ⟨s0, hs0, hsle⟩ := ffirst_le (Char.ofNat 123) text i (by omega) hdi
        obtain ⟨e0, he0, hele⟩ := rlast_ge (Char.ofNat 125) text j hj hdj
        have hfind : pyFind text (Char.ofNat 123) = (s0 : Int) := by
          simp only [pyFind, hs0]
        have hrfind : pyRfind text (Char.ofNat 125) = (e0 : Int) := by
          simp only [pyRfind, he0]
        rcases hcond with hc | hc
        · rw [hfind] at hc
          omega
        · rw [hfind, hrfind] at hc
          have : e0 ≤ s0 := by exact_mod_cast hc
          omega
      · intro hno
        exact ⟨"Model response did not contain a JSON object.".data, rfl⟩
    · rw [if_neg hcond]
      push_neg at hcond
      obtain ⟨hs, hlt⟩ := hcond
      constructor
      · rintro ⟨msg, hmsg⟩
        exact Except.noConfusion hmsg
      · intro hno
        exfalso
        cases hf : ffirst text (Char.ofNat 123) with
        | none =>
          simp only [pyFind, hf] at hs
          exact hs rfl
        | some s0 =>
          cases hr : rlast text (Char.ofNat 125) with
          | none =>
            simp only [pyFind, hf] at hlt
            simp only [pyRfind, hr] at hlt
            omega
          | some e0 =>
            simp only [pyFind, hf] at hlt
            simp only [pyRfind, hr] at hlt
            apply hno
            obtain ⟨hs1, hs2⟩ := ffirst_sound (Char.ofNat 123) text s0 hf
            obtain ⟨he1, he2⟩ := rlast_sound (Char.ofNat 125) text e0 hr
            refine ⟨s0, e0, ?_, he1, hs2, he2⟩
            exact_mod_cast hlt
  · intro s e hsdef hedef hcond
    rw [_extract_json, hsdef, hedef, if_neg hcond]
  · intro loads
    rw [get_interesting_reddit_post]
    by_cases ht : text = []
    · rw [if_pos ht]
      constructor
      · intro _
        exact Or.inl ht
      · intro _
        exact ⟨"Model response was empty.".data, rfl⟩
    · rw [if_neg ht]
      cases he : _extract_json text with
      | error e =>
        dsimp only
        have hshape := extract_json_error_shape text e he
        constructor
        · intro _
          exact Or.inr (Or.inl ⟨_, by rw [hshape]⟩)
        · intro _
          exact ⟨_, by rw [hshape]⟩
      | ok span =>
        dsimp only
        cases hl : loads span with
        | none =>
          dsimp only
          constructor
          · intro _
            exact Or.inr (Or.inr ⟨span, rfl, hl⟩)
          · intro _
            exact ⟨"Invalid JSON in model response.".data, rfl⟩
        | some p =>
          dsimp only
          have hrhsfalse : ¬(text = []
              ∨ (∃ msg, (Except.ok span : Except PipelineError (List Char))
                  = Except.error (PipelineError.malformedResponse msg))
              ∨ (∃ span2, (Except.ok span : Except PipelineError (List Char))
                  = Except.ok span2 ∧ loads span2 = none)) := by
            rintro (h1 | ⟨msg, h2⟩ | ⟨span2, h3, h4⟩)
            · exact ht h1
            · exact Except.noConfusion h2
            · injection h3 with h5
              subst h5
              rw [hl] at h4
              exact Option.noConfusion h4
          cases hsfw : _ensure_sfw p with
          | error e2 =>
            dsimp only
            have hshape := ensure_sfw_error_shape p e2 hsfw
            subst hshape
            constructor
            · rintro ⟨msg, hmsg⟩
              injection hmsg with h6
              exact PipelineError.noConfusion h6
            · intro hr
              exact absurd hr hrhsfalse
          | ok u =>
            dsimp only
            cases hk : _ensure_min_karma p 1000 with
            | error e3 =>
              dsimp only
              have hshape := ensure_min_karma_error_shape p 1000 e3 hk
              subst hshape
              constructor
              · rintro ⟨msg, hmsg⟩
                injection hmsg with h6
                exact PipelineError.noConfusion h6
              · intro hr
                exact absurd hr hrhsfalse
            | ok u2 =>
              dsimp only
              constructor
              · rintro ⟨msg, hmsg⟩
                exact Except.noConfusion hmsg
              · intro hr
                exact absurd hr hrhsfalse

/-- C9 witness: the success clause of `extract_json_spec` instantiated at a
concrete response text whose first brace is at index 1 and last closing
brace at index 3. -/
theorem extract_json_spec_witness :
    _extract_json ['a', Char.ofNat 123, 'b', Char.ofNat 125]
      = Except.ok [Char.ofNat 123, 'b', Char.ofNat 125] :=
  (extract_json_spec ['a', Char.ofNat 123, 'b', Char.ofNat 125]).2.1 1 3
    (by decide) (by decide) (by decide)

theorem getD_take (l : List Char) :
    ∀ (n j : Nat), j < n → (l.take n).getD j 'x' = l.getD j 'x' := by
  induction l with
  | nil =>
    intro n j _
    simp
  | cons a as ih =>
    intro n j hj
    cases n with
    | zero => omega
    | succ n' =>
      rw [List.take_succ_cons]
      cases j with
      | zero => rfl
      | succ j' =>
        rw [List.getD_cons_succ, List.getD_cons_succ]
        exact ih n' j' (by omega)

theorem pyRstrip_eq_take :
    ∀ l : List Char, pyRstrip l = l.take (pyRstrip l).length := by
  intro l
  induction l with
  | nil => rfl
  | cons a as ih =>
    rw [pyRstrip]
    cases hr : pyRstrip as with
    | nil =>
      dsimp only
      by_cases hsp : pyIsSpace a = true
      · rw [if_pos hsp]
        rfl
      · rw [if_neg hsp]
        rfl
    | cons b bs =>
      dsimp only
      rw [hr] at ih
      simp only [List.length_cons] at ih
      simp only [List.length_cons, List.take_succ_cons]
      rw [← ih]

theorem pyRstrip_nil_all_space :
    ∀ l : List Char, pyRstrip l = [] →
      ∀ j : Nat, j < l.length → pyIsSpace (l.getD j 'x') = true := by
  intro l
  induction l with
  | nil =>
    intro _ j hj
    simp at hj
  | cons a as ih =>
    intro h0 j hj
    rw [pyRstrip] at h0
    cases hr : pyRstrip as with
    | cons b bs =>
      rw [hr] at h0
      exact List.noConfusion h0
    | nil =>
      rw [hr] at h0
      dsimp only at h0
      by_cases hsp : pyIsSpace a = true
      · cases j with
        | zero => exact hsp
        | succ j' =>
          rw [List.getD_cons_succ]
          exact ih hr j' (by simpa using hj)
      · rw [if_neg hsp] at h0
        exact List.noConfusion h0

theorem pyRstrip_next_space :
    ∀ l : List Char, (pyRstrip l).length < l.length →
      pyIsSpace (l.getD (pyRstrip l).length 'x') = true := by
  intro l
  induction l with
  | nil =>
    intro h
    simp at h
  | cons a as ih =>
    intro h
    have hstep : pyRstrip (a :: as) = (match pyRstrip as with
      | [] => if pyIsSpace a = true then [] else [a]
      | b :: bs => a :: b :: bs) := rfl
    cases hr : pyRstrip as with
    | nil =>
      rw [hstep, hr] at h ⊢
      dsimp only at h ⊢
      by_cases hsp : pyIsSpace a = true
      · rw [if_pos hsp] at h ⊢
        exact hsp
      · rw [if_neg hsp] at h ⊢
        have has : 0 < as.length := by
          simp only [List.length_singleton, List.length_cons] at h
          omega
        show pyIsSpace (as.getD 0 'x') = true
        exact pyRstrip_nil_all_space as hr 0 has
    | cons b bs =>
      rw [hstep, hr] at h ⊢
      dsimp only at h ⊢
      simp only [List.length_cons] at h ⊢
      simp only [List.getD_cons_succ]
      rw [← List.length_cons b bs, ← hr]
      rw [← List.length_cons b bs, ← hr] at h
      exact ih (by omega)

/-- C7: `_truncate_body` returns the text unchanged when it is empty or no
longer than `maxLength`; otherwise it takes the first `maxLength` characters,
cuts at the last space when that space sits beyond 70% of the window, strips
trailing whitespace and appends "..." — so whenever the window's last 30%
holds a space, the output minus the ellipsis is a prefix of the text whose
next character is whitespace (it never ends mid-word). -/
theorem truncate_body_word_boundary :
    (∀ (text : List Char) (m : Nat), text = [] ∨ text.length ≤ m →
        _truncate_body text m = text)
    ∧ (∀ (text : List Char) (m i : Nat),
        m < text.length → i < m → 7 * m < 10 * i → text.getD i 'x' = ' ' →
        ∃ k : Nat, k < text.length
          ∧ _truncate_body text m = text.take k ++ "...".data
          ∧ pyIsSpace (text.getD k 'x') = true) := by
  constructor
  · intro text m h
    rw [_truncate_body, if_pos h]
  · intro text m i hm him h7 hsp
    have hcond : ¬(text = [] ∨ text.length ≤ m) := by
      rintro (h1 | h1)
      · rw [h1] at hm
        simp at hm
      · omega
    have htrlen : (text.take m).length = m := by
      rw [List.length_take]
      omega
    have htri : (text.take m).getD i 'x' = ' ' := by
      rw [getD_take text m i him]
      exact hsp
    obtain ⟨j, hj, hij⟩ := rlast_ge ' ' (text.take m) i (by omega) htri
    obtain ⟨hjlen, hjch⟩ := rlast_sound ' ' (text.take m) j hj
    have hjm : j < m := by omega
    have hcondint : 10 * pyRfind (text.take m) ' ' > 7 * (m : Int) := by
      simp only [pyRfind, hj]
      have h10 : 7 * m < 10 * j := by omega
      exact_mod_cast h10
    have hout : _truncate_body text m
        = pyRstrip ((text.take m).take j) ++ "...".data := by
      rw [_truncate_body, if_neg hcond]
      simp only []
      rw [if_pos hcondint]
      simp only [pyRfind, hj, Int.toNat_ofNat]
    have hjtl : ((text.take m).take j).length = j := by
      rw [List.length_take, htrlen]
      omega
    have hkle : (pyRstrip ((text.take m).take j)).length ≤ j := by
      have h1 := pyRstrip_length_le ((text.take m).take j)
      omega
    have hprefix : pyRstrip ((text.take m).take j)
        = text.take (pyRstrip ((text.take m).take j)).length := by
      have hmin1 : (pyRstrip ((text.take m).take j)).length ⊓ j
          = (pyRstrip ((text.take m).take j)).length := Nat.min_eq_left hkle
      have hmin2 : (pyRstrip ((text.take m).take j)).length ⊓ m
          = (pyRstrip ((text.take m).take j)).length := Nat.min_eq_left (by omega)
      rw [pyRstrip_eq_take ((text.take m).take j), List.take_take, hmin1,
        List.take_take, hmin2, List.length_take, Nat.min_eq_left (by omega)]
    refine ⟨(pyRstrip ((text.take m).take j)).length, by omega, ?_, ?_⟩
    · rw [hout, ← hprefix]
    · rcases Nat.eq_or_lt_of_le hkle with hk | hk
      · have hsp2 : text.getD j 'x' = ' ' := by
          rw [← getD_take text m j hjm]
          exact hjch
        rw [hk, hsp2]
        decide
      · have hns := pyRstrip_next_space ((text.take m).take j) (by omega)
        rw [getD_take (text.take m) j _ hk, getD_take text m _ (by omega)] at hns
        exact hns

/-- C7 witness: both clauses of `truncate_body_word_boundary` instantiated —
a short text is returned unchanged, and a 13-character text over a
10-character window with a space at index 8 (beyond 70% of the window)
yields a word-boundary cut. -/
theorem truncate_body_word_boundary_witness :
    _truncate_body "hi".data 5 = "hi".data
    ∧ ∃ k : Nat, k < ("aaaa aaa aaaa".data).length
      ∧ _truncate_body "aaaa aaa aaaa".data 10 = ("aaaa aaa aaaa".data).take k ++ "...".data
      ∧ pyIsSpace (("aaaa aaa aaaa".data).getD k 'x') = true :=
  ⟨truncate_body_word_boundary.1 "hi".data 5 (Or.inr (by decide)),
   truncate_body_word_boundary.2 "aaaa aaa aaaa".data 10 8
     (by decide) (by decide) (by decide) (by decide)⟩
